import Mathlib

/-!
# Verification of the cutest unit-test framework core

A shallow embedding of the core of the `cunittest` repository
(`include/cutest.h` and its test sources), together with proofs of the
spec's testable properties.

The repository ships the public header, which contains the registration
macros (`TEST_PARAMETERIZED_DEFINE`, `TEST_P`, `TEST_REGISTER_TYPE_ONCE`,
`ASSERT_TEMPLATE_EXT`, `TEST_ARG_COUNT`), the descriptor structures
(`cutest_case_t`, `cutest_type_info_t`, `cutest_map_node_t`) and the
declarations of the runtime entry points.  The runtime implementation
(registry tree, comparison engine, execution harness, floating-point
comparator) is declared but not present in the sources; those parts are
modelled from the specification and carry a doc comment saying so.

Strings are modelled byte-wise as `List Nat`; function pointers are
modelled by their identity as a `Nat`.
-/

/-- A C byte string, modelled as its list of byte values (the bytes up to,
but excluding, the terminating NUL). -/
abbrev CStr := List Nat

/-- Byte-wise lexicographic three-way comparison of two byte strings, the
order used by the registry key comparison (C `strcmp` on the underlying
bytes). -/
def strcmp : CStr → CStr → Ordering
  | [], [] => .eq
  | [], _ :: _ => .lt
  | _ :: _, [] => .gt
  | a :: as, b :: bs =>
    if a < b then .lt else if b < a then .gt else strcmp as bs

/-- Three-way comparison of two naturals (used for `param_idx`). -/
def natCmp (a b : Nat) : Ordering :=
  if a < b then .lt else if b < a then .gt else .eq

theorem strcmp_eq_iff : ∀ a b : CStr, strcmp a b = .eq ↔ a = b := by
  intro a
  induction a with
  | nil => intro b; cases b <;> simp [strcmp]
  | cons x xs ih =>
    intro b
    cases b with
    | nil => simp [strcmp]
    | cons y ys =>
      by_cases h1 : x < y
      · simp [strcmp, h1]
        omega
      · by_cases h2 : y < x
        · simp [strcmp, h1, h2]
          omega
        · have hxy : x = y := by omega
          simp [strcmp, h1, h2, hxy, ih]

theorem strcmp_self (a : CStr) : strcmp a a = .eq :=
  (strcmp_eq_iff a a).mpr rfl

theorem strcmp_lt_gt : ∀ a b : CStr, strcmp a b = .lt ↔ strcmp b a = .gt := by
  intro a
  induction a with
  | nil => intro b; cases b <;> simp [strcmp]
  | cons x xs ih =>
    intro b
    cases b with
    | nil => simp [strcmp]
    | cons y ys =>
      by_cases h1 : x < y
      · have h2 : ¬ y < x := by omega
        simp [strcmp, h1, h2]
      · by_cases h2 : y < x
        · simp [strcmp, h1, h2]
        · simp [strcmp, h1, h2, ih]

theorem strcmp_lt_trans :
    ∀ a b c : CStr, strcmp a b = .lt → strcmp b c = .lt → strcmp a c = .lt := by
  intro a
  induction a with
  | nil =>
    intro b c hab hbc
    cases b with
    | nil => exact hbc
    | cons y ys =>
      cases c with
      | nil => simp [strcmp] at hbc
      | cons z zs => simp [strcmp]
  | cons x xs ih =>
    intro b c hab hbc
    cases b with
    | nil => simp [strcmp] at hab
    | cons y ys =>
      cases c with
      | nil => simp [strcmp] at hbc
      | cons z zs =>
        simp only [strcmp] at hab hbc ⊢
        by_cases hxy : x < y
        · by_cases hyz : y < z
          · have hxz : x < z := by omega
            simp [hxz]
          · by_cases hzy : z < y
            · simp [hxy, hyz, hzy] at hbc
            · have hyz' : y = z := by omega
              have hxz : x < z := by omega
              simp [hxz]
        · by_cases hyx : y < x
          · simp [hxy, hyx] at hab
          · have hxy' : x = y := by omega
            subst hxy'
            by_cases hxz : x < z
            · simp [hxz]
            · by_cases hzx : z < x
              · simp [hxz, hzx] at hbc
              · simp [hxy, hxz, hzx] at hab hbc ⊢
                exact ih ys zs hab hbc

/-- The test-case descriptor `cutest_case_t` of `include/cutest.h`
(lines 352-382).  The embedded `cutest_map_node_t` intrusive node holds no
data of its own (only tree-shape pointers) and is represented by the tree
structure below; function pointers (`setup`, `teardown`, `body`) are
modelled by their identities as naturals; `param_data` points to the
immutable parameter array, modelled by the array's contents. -/
structure cutest_case where
  fixture_name : CStr
  case_name : CStr
  setup : Nat
  teardown : Nat
  body : Nat
  mask : Nat
  randkey : Nat
  type_name : CStr
  test_data_cstr : CStr
  param_data : List Int
  param_idx : Nat
  deriving DecidableEq, Repr

/-- The composite registry key (fixture_name, case_name, param_idx). -/
def caseKey (c : cutest_case) : CStr × CStr × Nat :=
  (c.fixture_name, c.case_name, c.param_idx)

/-- Byte-wise lexicographic comparison of composite keys: fixture name
first, then case name, then parameter index. -/
def keyCmp (k1 k2 : CStr × CStr × Nat) : Ordering :=
  (strcmp k1.1 k2.1).then ((strcmp k1.2.1 k2.2.1).then (natCmp k1.2.2 k2.2.2))

theorem natCmp_eq_iff (a b : Nat) : natCmp a b = .eq ↔ a = b := by
  unfold natCmp
  split <;> rename_i h1
  · simp; omega
  · split <;> rename_i h2
    · simp; omega
    · simp; omega

theorem natCmp_lt_iff (a b : Nat) : natCmp a b = .lt ↔ a < b := by
  unfold natCmp
  split <;> rename_i h1
  · simp [h1]
  · split <;> rename_i h2 <;> simp <;> omega

theorem natCmp_gt_iff (a b : Nat) : natCmp a b = .gt ↔ b < a := by
  unfold natCmp
  split <;> rename_i h1
  · simp; omega
  · split <;> rename_i h2 <;> simp <;> omega

theorem strcmp_gt_iff_lt (a b : CStr) : strcmp a b = .gt ↔ strcmp b a = .lt :=
  (strcmp_lt_gt b a).symm

theorem keyCmp_eq_iff (k1 k2 : CStr × CStr × Nat) :
    keyCmp k1 k2 = .eq ↔ k1 = k2 := by
  obtain ⟨f1, c1, p1⟩ := k1
  obtain ⟨f2, c2, p2⟩ := k2
  simp [keyCmp, Ordering.then_eq_eq, strcmp_eq_iff, natCmp_eq_iff]

theorem keyCmp_lt_gt (k1 k2 : CStr × CStr × Nat) :
    keyCmp k1 k2 = .lt ↔ keyCmp k2 k1 = .gt := by
  obtain ⟨f1, c1, p1⟩ := k1
  obtain ⟨f2, c2, p2⟩ := k2
  simp only [keyCmp, Ordering.then_eq_lt, Ordering.then_eq_gt]
  constructor
  · rintro (h | ⟨he, h | ⟨he2, h3⟩⟩)
    · exact Or.inl ((strcmp_lt_gt f1 f2).mp h)
    · have : f1 = f2 := (strcmp_eq_iff f1 f2).mp he
      subst this
      exact Or.inr ⟨strcmp_self f1, Or.inl ((strcmp_lt_gt c1 c2).mp h)⟩
    · have : f1 = f2 := (strcmp_eq_iff f1 f2).mp he
      subst this
      have : c1 = c2 := (strcmp_eq_iff c1 c2).mp he2
      subst this
      refine Or.inr ⟨strcmp_self f1, Or.inr ⟨strcmp_self c1, ?_⟩⟩
      rw [natCmp_gt_iff]
      exact (natCmp_lt_iff p1 p2).mp h3
  · rintro (h | ⟨he, h | ⟨he2, h3⟩⟩)
    · exact Or.inl ((strcmp_gt_iff_lt f2 f1).mp h)
    · have : f2 = f1 := (strcmp_eq_iff f2 f1).mp he
      subst this
      exact Or.inr ⟨strcmp_self f2, Or.inl ((strcmp_gt_iff_lt c2 c1).mp h)⟩
    · have : f2 = f1 := (strcmp_eq_iff f2 f1).mp he
      subst this
      have : c2 = c1 := (strcmp_eq_iff c2 c1).mp he2
      subst this
      refine Or.inr ⟨strcmp_self f2, Or.inr ⟨strcmp_self c2, ?_⟩⟩
      rw [natCmp_lt_iff]
      exact (natCmp_gt_iff p2 p1).mp h3

theorem strcmp_eq_trans_lt {a b c : CStr} (h1 : strcmp a b = .eq)
    (h2 : strcmp b c = .lt) : strcmp a c = .lt := by
  have : a = b := (strcmp_eq_iff a b).mp h1
  subst this
  exact h2

theorem keyCmp_lt_trans {k1 k2 k3 : CStr × CStr × Nat}
    (h1 : keyCmp k1 k2 = .lt) (h2 : keyCmp k2 k3 = .lt) :
    keyCmp k1 k3 = .lt := by
  obtain ⟨f1, c1, p1⟩ := k1
  obtain ⟨f2, c2, p2⟩ := k2
  obtain ⟨f3, c3, p3⟩ := k3
  simp only [keyCmp, Ordering.then_eq_lt] at h1 h2 ⊢
  rcases h1 with h1 | ⟨h1e, h1'⟩
  · rcases h2 with h2 | ⟨h2e, _⟩
    · exact Or.inl (strcmp_lt_trans _ _ _ h1 h2)
    · have : f2 = f3 := (strcmp_eq_iff f2 f3).mp h2e
      subst this
      exact Or.inl h1
  · have hf : f1 = f2 := (strcmp_eq_iff f1 f2).mp h1e
    subst hf
    rcases h2 with h2 | ⟨h2e, h2'⟩
    · exact Or.inl h2
    · have : f1 = f3 := (strcmp_eq_iff f1 f3).mp h2e
      subst this
      refine Or.inr ⟨strcmp_self f1, ?_⟩
      rcases h1' with h1' | ⟨h1e', h1''⟩
      · rcases h2' with h2' | ⟨h2e', _⟩
        · exact Or.inl (strcmp_lt_trans _ _ _ h1' h2')
        · have : c2 = c3 := (strcmp_eq_iff c2 c3).mp h2e'
          subst this
          exact Or.inl h1'
      · have hc : c1 = c2 := (strcmp_eq_iff c1 c2).mp h1e'
        subst hc
        rcases h2' with h2' | ⟨h2e', h2''⟩
        · exact Or.inl h2'
        · have : c1 = c3 := (strcmp_eq_iff c1 c3).mp h2e'
          subst this
          refine Or.inr ⟨strcmp_self c1, ?_⟩
          rw [natCmp_lt_iff] at h1'' h2'' ⊢
          omega

/-- The strict key order on descriptors used to state sortedness. -/
def keyLt (a b : cutest_case) : Prop :=
  keyCmp (caseKey a) (caseKey b) = .lt

/-- Modelled from the spec: the ordered registry of SS4.1.  The repository's
sources declare the intrusive tree node `cutest_map_node_t` and the entry
point `cutest_register_case` but the balanced-tree implementation itself is
not under the shipped sources; the spec describes a self-balancing binary
search tree keyed by byte-wise lexicographic comparison of the composite
key, whose contract is `insert -> Result<void, DuplicateKey>`, `find` and
`in_order_traverse`.  Balancing (the red-black discipline) only affects
complexity, not the functional contract, so the model is a plain binary
search tree ordered by `keyCmp`. -/
inductive CaseTree where
  | nil : CaseTree
  | node (l : CaseTree) (v : cutest_case) (r : CaseTree) : CaseTree
  deriving DecidableEq, Repr

namespace CaseTree

/-- Modelled from the spec: BST insertion; `none` signals `DuplicateKey`. -/
def insert (t : CaseTree) (c : cutest_case) : Option CaseTree :=
  match t with
  | .nil => some (.node .nil c .nil)
  | .node l v r =>
    match keyCmp (caseKey c) (caseKey v) with
    | .lt => (insert l c).map (fun l2 => .node l2 v r)
    | .gt => (insert r c).map (fun r2 => .node l v r2)
    | .eq => none

/-- Modelled from the spec: `find(key) -> Option<descriptor>`. -/
def findKey (t : CaseTree) (k : CStr × CStr × Nat) : Option cutest_case :=
  match t with
  | .nil => none
  | .node l v r =>
    match keyCmp k (caseKey v) with
    | .lt => findKey l k
    | .gt => findKey r k
    | .eq => some v

/-- Modelled from the spec: `in_order_traverse() -> sequence of
descriptors`. -/
def inorder : CaseTree → List cutest_case
  | .nil => []
  | .node l v r => inorder l ++ v :: inorder r

/-- Membership in the tree. -/
def mem (t : CaseTree) (c : cutest_case) : Prop := c ∈ t.inorder

/-- The binary-search-tree ordering invariant with respect to `keyCmp`. -/
def Ordered : CaseTree → Prop
  | .nil => True
  | .node l v r =>
    Ordered l ∧ Ordered r ∧
    (∀ x ∈ l.inorder, keyCmp (caseKey x) (caseKey v) = .lt) ∧
    (∀ x ∈ r.inorder, keyCmp (caseKey v) (caseKey x) = .lt)

theorem mem_inorder_of_insert {t t' : CaseTree} {c : cutest_case}
    (h : t.insert c = some t') : ∀ x, x ∈ t'.inorder ↔ x = c ∨ x ∈ t.inorder := by
  induction t generalizing t' with
  | nil =>
    simp only [insert] at h
    cases h
    intro x
    simp [inorder]
  | node l v r ihl ihr =>
    intro x
    simp only [insert] at h
    rcases hk : keyCmp (caseKey c) (caseKey v) with _ | _ | _ <;> rw [hk] at h
    · rcases hins : l.insert c with _ | l2 <;> rw [hins] at h
      · simp at h
      · simp only [Option.map_some] at h
        cases h
        simp only [inorder, List.mem_append, List.mem_cons]
        rw [ihl hins x]
        tauto
    · simp at h
    · rcases hins : r.insert c with _ | r2 <;> rw [hins] at h
      · simp at h
      · simp only [Option.map_some] at h
        cases h
        simp only [inorder, List.mem_append, List.mem_cons]
        rw [ihr hins x]
        tauto

theorem insert_perm {t t' : CaseTree} {c : cutest_case}
    (h : t.insert c = some t') : t'.inorder.Perm (c :: t.inorder) := by
  induction t generalizing t' with
  | nil =>
    simp only [insert] at h
    cases h
    simp [inorder]
  | node l v r ihl ihr =>
    simp only [insert] at h
    rcases hk : keyCmp (caseKey c) (caseKey v) with _ | _ | _ <;> rw [hk] at h
    · rcases hins : l.insert c with _ | l2 <;> rw [hins] at h
      · simp at h
      · simp only [Option.map_some] at h
        cases h
        simp only [inorder]
        exact (ihl hins).append_right _
    · simp at h
    · rcases hins : r.insert c with _ | r2 <;> rw [hins] at h
      · simp at h
      · simp only [Option.map_some] at h
        cases h
        simp only [inorder]
        have s1 : (l.inorder ++ v :: r2.inorder).Perm
            (l.inorder ++ v :: c :: r.inorder) :=
          List.Perm.append_left _ (List.Perm.cons _ (ihr hins))
        have s2 : (l.inorder ++ v :: c :: r.inorder).Perm
            (c :: (l.inorder ++ v :: r.inorder)) := by
          have h2 := @List.perm_middle _ c (l.inorder ++ [v]) r.inorder
          simpa using h2
        exact s1.trans s2

theorem insert_ordered {t t' : CaseTree} {c : cutest_case}
    (ht : t.Ordered) (h : t.insert c = some t') : t'.Ordered := by
  induction t generalizing t' with
  | nil =>
    simp only [insert] at h
    cases h
    exact ⟨trivial, trivial, by simp [inorder], by simp [inorder]⟩
  | node l v r ihl ihr =>
    obtain ⟨hol, hor, hlv, hvr⟩ := ht
    simp only [insert] at h
    rcases hk : keyCmp (caseKey c) (caseKey v) with _ | _ | _ <;> rw [hk] at h
    · rcases hins : l.insert c with _ | l2 <;> rw [hins] at h
      · simp at h
      · simp only [Option.map_some] at h
        cases h
        refine ⟨ihl hol hins, hor, ?_, hvr⟩
        intro x hx
        rcases (mem_inorder_of_insert hins x).mp hx with hxc | hxl
        · subst hxc; exact hk
        · exact hlv x hxl
    · simp at h
    · rcases hins : r.insert c with _ | r2 <;> rw [hins] at h
      · simp at h
      · simp only [Option.map_some] at h
        cases h
        refine ⟨hol, ihr hor hins, hlv, ?_⟩
        intro x hx
        rcases (mem_inorder_of_insert hins x).mp hx with hxc | hxr
        · subst hxc
          exact (keyCmp_lt_gt _ _).mpr hk
        · exact hvr x hxr

theorem ordered_inorder_pairwise {t : CaseTree} (ht : t.Ordered) :
    t.inorder.Pairwise keyLt := by
  induction t with
  | nil => simp [inorder]
  | node l v r ihl ihr =>
    obtain ⟨hol, hor, hlv, hvr⟩ := ht
    simp only [inorder]
    rw [List.pairwise_append]
    refine ⟨ihl hol, ?_, ?_⟩
    · rw [List.pairwise_cons]
      exact ⟨fun b hb => hvr b hb, ihr hor⟩
    · intro a ha b hb
      rcases List.mem_cons.mp hb with hbv | hbr
      · subst hbv; exact hlv a ha
      · exact keyCmp_lt_trans (hlv a ha) (hvr b hbr)

theorem insert_eq_none_of_mem_key {t : CaseTree} {c x : cutest_case}
    (ht : t.Ordered) (hx : x ∈ t.inorder) (hkey : caseKey x = caseKey c) :
    t.insert c = none := by
  induction t with
  | nil => simp [inorder] at hx
  | node l v r ihl ihr =>
    obtain ⟨hol, hor, hlv, hvr⟩ := ht
    simp only [inorder, List.mem_append, List.mem_cons] at hx
    simp only [insert]
    rcases hx with hxl | hxv | hxr
    · have hlt : keyCmp (caseKey c) (caseKey v) = .lt := by
        rw [← hkey]
        exact hlv x hxl
      rw [hlt, ihl hol hxl]
      rfl
    · have heq : keyCmp (caseKey c) (caseKey v) = .eq := by
        rw [← hkey, ← hxv]
        exact (keyCmp_eq_iff _ _).mpr rfl
      rw [heq]
    · have hgt : keyCmp (caseKey c) (caseKey v) = .gt := by
        rw [← keyCmp_lt_gt]
        rw [← hkey]
        exact hvr x hxr
      rw [hgt, ihr hor hxr]
      rfl

end CaseTree

/-- Modelled from the spec: `cutest_register_case` (declared in
`include/cutest.h` line 388; its body is not among the shipped sources).
The spec requires fail-fast rejection of a duplicate composite key, leaving
the registry unchanged; on a fresh key the descriptor is inserted into the
ordered registry.  Returns the registry afterwards together with a flag
telling whether the registration was accepted. -/
def cutest_register_case (t : CaseTree) (c : cutest_case) :
    CaseTree × Bool :=
  match t.insert c with
  | some t2 => (t2, true)
  | none => (t, false)

/-- Registering a whole list of descriptors in order, as the load-time
constructors do one by one. -/
def registerAll (t : CaseTree) (cs : List cutest_case) : CaseTree :=
  cs.foldl (fun acc c => (cutest_register_case acc c).1) t

/-- Distinctness of composite keys. -/
abbrev keysDistinct (cs : List cutest_case) : Prop :=
  cs.Pairwise (fun a b => caseKey a ≠ caseKey b)

theorem registerAll_spec (cs : List cutest_case) (t : CaseTree)
    (ht : t.Ordered)
    (hdisj : ∀ c ∈ cs, ∀ x ∈ t.inorder, caseKey x ≠ caseKey c)
    (hdist : keysDistinct cs) :
    (registerAll t cs).Ordered ∧
      (registerAll t cs).inorder.Perm (t.inorder ++ cs) := by
  induction cs generalizing t with
  | nil => simpa [registerAll] using ht
  | cons c cs ih =>
    rcases hins : t.insert c with _ | t2
    · -- insertion cannot fail: no key of the registry equals caseKey c
      exfalso
      -- from failure derive a duplicate in the tree, contradicting hdisj
      -- we prove the contrapositive directly by induction on the tree
      clear ih hdist
      induction t with
      | nil => simp [CaseTree.insert] at hins
      | node l v r ihl ihr =>
        obtain ⟨hol, hor, hlv, hvr⟩ := ht
        simp only [CaseTree.insert] at hins
        rcases hk : keyCmp (caseKey c) (caseKey v) with _ | _ | _ <;>
          rw [hk] at hins
        · rcases hins2 : l.insert c with _ | l2 <;> rw [hins2] at hins
          · exact ihl hol (fun c2 hc2 x hx => hdisj c2 hc2 x
              (by simp [CaseTree.inorder]; tauto)) hins2
          · simp at hins
        · exact hdisj c (by simp) v (by simp [CaseTree.inorder])
            ((keyCmp_eq_iff _ _).mp hk).symm
        · rcases hins2 : r.insert c with _ | r2 <;> rw [hins2] at hins
          · exact ihr hor (fun c2 hc2 x hx => hdisj c2 hc2 x
              (by simp [CaseTree.inorder]; tauto)) hins2
          · simp at hins
    · have hreg : (cutest_register_case t c).1 = t2 := by
        simp [cutest_register_case, hins]
      have ht2 : t2.Ordered := CaseTree.insert_ordered ht hins
      have hmem := CaseTree.mem_inorder_of_insert hins
      have hdisj2 : ∀ c2 ∈ cs, ∀ x ∈ t2.inorder, caseKey x ≠ caseKey c2 := by
        intro c2 hc2 x hx
        rcases (hmem x).mp hx with hxc | hxt
        · subst hxc
          exact fun he => (List.pairwise_cons.mp hdist).1 c2 hc2 he
        · exact hdisj c2 (by simp [hc2]) x hxt
      have hdist2 : keysDistinct cs := (List.pairwise_cons.mp hdist).2
      obtain ⟨ho, hp⟩ := ih t2 ht2 hdisj2 hdist2
      have hstep : registerAll t (c :: cs) = registerAll t2 cs := by
        simp [registerAll, hreg]
      rw [hstep]
      refine ⟨ho, hp.trans ?_⟩
      have hp2 : t2.inorder.Perm (c :: t.inorder) :=
        CaseTree.insert_perm hins
      have : (t2.inorder ++ cs).Perm ((c :: t.inorder) ++ cs) :=
        hp2.append_right cs
      refine this.trans ?_
      exact (@List.perm_middle _ c t.inorder cs).symm

/-- Sample descriptors used as concrete witnesses. -/
def sampleCaseA : cutest_case :=
  ⟨[102], [97], 0, 0, 1, 0, 0, [], [], [], 0⟩

def sampleCaseB : cutest_case :=
  ⟨[102], [98], 0, 0, 2, 0, 0, [], [], [], 0⟩

/-- A descriptor with the same composite key as `sampleCaseA` but a
different body. -/
def dupCase : cutest_case :=
  ⟨[102], [97], 0, 0, 9, 0, 0, [], [], [], 0⟩

/-- C5: for all sequences of case registrations with pairwise-distinct
(fixture_name, case_name, param_index) keys, the registry's in-order
traversal yields exactly the registered descriptors, sorted by byte-wise
lexicographic order of (fixture_name, case_name, param_index). -/
theorem C5_inorder_traverse_sorted (cs : List cutest_case)
    (hdist : keysDistinct cs) :
    (registerAll CaseTree.nil cs).inorder.Perm cs ∧
      (registerAll CaseTree.nil cs).inorder.Pairwise keyLt := by
  obtain ⟨ho, hp⟩ := registerAll_spec cs CaseTree.nil trivial
    (by simp [CaseTree.inorder]) hdist
  exact ⟨by simpa [CaseTree.inorder] using hp,
    CaseTree.ordered_inorder_pairwise ho⟩

theorem C5_inorder_traverse_sorted_witness :
    keysDistinct [sampleCaseB, sampleCaseA] ∧
      ((registerAll CaseTree.nil [sampleCaseB, sampleCaseA]).inorder.Perm
          [sampleCaseB, sampleCaseA] ∧
        (registerAll CaseTree.nil
          [sampleCaseB, sampleCaseA]).inorder.Pairwise keyLt) :=
  ⟨by decide, C5_inorder_traverse_sorted [sampleCaseB, sampleCaseA]
    (by decide)⟩

/-- C6: registering a descriptor whose composite key already exists in the
registry is rejected deterministically (the returned flag is `false`, not a
silent overwrite) and the registry contents are unchanged afterward. -/
theorem C6_duplicate_rejected (t : CaseTree) (c x : cutest_case)
    (ht : t.Ordered) (hx : x ∈ t.inorder) (hkey : caseKey x = caseKey c) :
    cutest_register_case t c = (t, false) := by
  simp [cutest_register_case,
    CaseTree.insert_eq_none_of_mem_key ht hx hkey]

theorem C6_duplicate_rejected_witness :
    (CaseTree.node .nil sampleCaseA .nil).Ordered ∧
      sampleCaseA ∈ (CaseTree.node .nil sampleCaseA .nil).inorder ∧
      caseKey sampleCaseA = caseKey dupCase ∧
      cutest_register_case (CaseTree.node .nil sampleCaseA .nil) dupCase =
        (CaseTree.node .nil sampleCaseA .nil, false) :=
  ⟨by simp [CaseTree.Ordered, CaseTree.inorder],
   by simp [CaseTree.inorder],
   by decide,
   C6_duplicate_rejected _ _ sampleCaseA
     (by simp [CaseTree.Ordered, CaseTree.inorder])
     (by simp [CaseTree.inorder]) (by decide)⟩

/-- The custom-type descriptor `cutest_type_info_t` of `include/cutest.h`
(lines 1154-1160): a map node, the type name, and the `cmp` and `dump`
function pointers (modelled by their identities as naturals). -/
structure cutest_type_info where
  type_name : CStr
  cmp : Nat
  dump : Nat
  deriving DecidableEq, Repr

/-- Modelled from the spec: the type registry of SS4.1/SS4.2 reuses the same
balanced-tree structure as the case registry, keyed only by `type_name`
(byte-wise `strcmp`).  As with `CaseTree`, balancing affects only
complexity and is omitted from the model. -/
inductive TypeTree where
  | nil : TypeTree
  | node (l : TypeTree) (v : cutest_type_info) (r : TypeTree) : TypeTree
  deriving DecidableEq, Repr

namespace TypeTree

/-- Modelled from the spec: BST insertion keyed by `type_name`; `none`
signals that the name is already present. -/
def insert (t : TypeTree) (c : cutest_type_info) : Option TypeTree :=
  match t with
  | .nil => some (.node .nil c .nil)
  | .node l v r =>
    match strcmp c.type_name v.type_name with
    | .lt => (insert l c).map (fun l2 => .node l2 v r)
    | .gt => (insert r c).map (fun r2 => .node l v r2)
    | .eq => none

/-- Modelled from the spec: look a type name up in the type registry,
returning the registered comparator/dump record. -/
def findType (t : TypeTree) (n : CStr) : Option cutest_type_info :=
  match t with
  | .nil => none
  | .node l v r =>
    match strcmp n v.type_name with
    | .lt => findType l n
    | .gt => findType r n
    | .eq => some v

def inorder : TypeTree → List cutest_type_info
  | .nil => []
  | .node l v r => inorder l ++ v :: inorder r

/-- The search-tree invariant for the type registry. -/
def Ordered : TypeTree → Prop
  | .nil => True
  | .node l v r =>
    Ordered l ∧ Ordered r ∧
    (∀ x ∈ l.inorder, strcmp x.type_name v.type_name = .lt) ∧
    (∀ x ∈ r.inorder, strcmp v.type_name x.type_name = .lt)

theorem mem_inorder_of_insert_type {t t' : TypeTree} {c : cutest_type_info}
    (h : t.insert c = some t') :
    ∀ x, x ∈ t'.inorder ↔ x = c ∨ x ∈ t.inorder := by
  induction t generalizing t' with
  | nil =>
    simp only [insert] at h
    cases h
    intro x
    simp [inorder]
  | node l v r ihl ihr =>
    intro x
    simp only [insert] at h
    rcases hk : strcmp c.type_name v.type_name with _ | _ | _ <;> rw [hk] at h
    · rcases hins : l.insert c with _ | l2 <;> rw [hins] at h
      · simp at h
      · simp only [Option.map_some] at h
        cases h
        simp only [inorder, List.mem_append, List.mem_cons]
        rw [ihl hins x]
        tauto
    · simp at h
    · rcases hins : r.insert c with _ | r2 <;> rw [hins] at h
      · simp at h
      · simp only [Option.map_some] at h
        cases h
        simp only [inorder, List.mem_append, List.mem_cons]
        rw [ihr hins x]
        tauto

theorem insert_type_ordered {t t' : TypeTree} {c : cutest_type_info}
    (ht : t.Ordered) (h : t.insert c = some t') : t'.Ordered := by
  induction t generalizing t' with
  | nil =>
    simp only [insert] at h
    cases h
    exact ⟨trivial, trivial, by simp [inorder], by simp [inorder]⟩
  | node l v r ihl ihr =>
    obtain ⟨hol, hor, hlv, hvr⟩ := ht
    simp only [insert] at h
    rcases hk : strcmp c.type_name v.type_name with _ | _ | _ <;> rw [hk] at h
    · rcases hins : l.insert c with _ | l2 <;> rw [hins] at h
      · simp at h
      · simp only [Option.map_some] at h
        cases h
        refine ⟨ihl hol hins, hor, ?_, hvr⟩
        intro x hx
        rcases (mem_inorder_of_insert_type hins x).mp hx with hxc | hxl
        · subst hxc; exact hk
        · exact hlv x hxl
    · simp at h
    · rcases hins : r.insert c with _ | r2 <;> rw [hins] at h
      · simp at h
      · simp only [Option.map_some] at h
        cases h
        refine ⟨hol, ihr hor hins, hlv, ?_⟩
        intro x hx
        rcases (mem_inorder_of_insert_type hins x).mp hx with hxc | hxr
        · subst hxc
          exact (strcmp_gt_iff_lt _ _).mp hk
        · exact hvr x hxr

theorem insert_eq_none_of_mem_name {t : TypeTree} {c x : cutest_type_info}
    (ht : t.Ordered) (hx : x ∈ t.inorder)
    (hkey : x.type_name = c.type_name) : t.insert c = none := by
  induction t with
  | nil => simp [inorder] at hx
  | node l v r ihl ihr =>
    obtain ⟨hol, hor, hlv, hvr⟩ := ht
    simp only [inorder, List.mem_append, List.mem_cons] at hx
    simp only [insert]
    rcases hx with hxl | hxv | hxr
    · have hlt : strcmp c.type_name v.type_name = .lt := by
        rw [← hkey]
        exact hlv x hxl
      rw [hlt, ihl hol hxl]
      rfl
    · have heq : strcmp c.type_name v.type_name = .eq := by
        rw [← hkey, ← hxv]
        exact strcmp_self _
      rw [heq]
    · have hgt : strcmp c.type_name v.type_name = .gt := by
        rw [strcmp_gt_iff_lt, ← hkey]
        exact hvr x hxr
      rw [hgt, ihr hor hxr]
      rfl

theorem insert_eq_none_mem {t : TypeTree} {c : cutest_type_info}
    (h : t.insert c = none) :
    ∃ x ∈ t.inorder, x.type_name = c.type_name := by
  induction t with
  | nil => simp [insert] at h
  | node l v r ihl ihr =>
    simp only [insert] at h
    rcases hk : strcmp c.type_name v.type_name with _ | _ | _ <;> rw [hk] at h
    · rcases hins : l.insert c with _ | l2 <;> rw [hins] at h
      · obtain ⟨x, hx, hn⟩ := ihl hins
        exact ⟨x, by simp [inorder, hx], hn⟩
      · simp at h
    · exact ⟨v, by simp [inorder],
        ((strcmp_eq_iff _ _).mp hk).symm⟩
    · rcases hins : r.insert c with _ | r2 <;> rw [hins] at h
      · obtain ⟨x, hx, hn⟩ := ihr hins
        exact ⟨x, by simp [inorder, hx], hn⟩
      · simp at h

end TypeTree

/-- Modelled from the spec: `cutest_internal_register_type` (declared in
`include/cutest.h` line 1167; its body is not among the shipped sources).
Per the spec the registration must be idempotent per type name: a name
already present is a no-op, keeping the first-registered record. -/
def cutest_internal_register_type (t : TypeTree)
    (info : cutest_type_info) : TypeTree :=
  match t.insert info with
  | some t2 => t2
  | none => t

/-- C7: registering a custom type a second time for the same type name is
a no-op: the type-registry state after the second registration equals the
state after the first, so the first-registered compare and dump functions
remain in effect for every lookup. -/
theorem C7_register_type_idempotent (t : TypeTree)
    (i1 i2 : cutest_type_info) (ht : t.Ordered)
    (hname : i2.type_name = i1.type_name) :
    cutest_internal_register_type (cutest_internal_register_type t i1) i2 =
        cutest_internal_register_type t i1 ∧
      ∀ n, TypeTree.findType
          (cutest_internal_register_type
            (cutest_internal_register_type t i1) i2) n =
        TypeTree.findType (cutest_internal_register_type t i1) n := by
  have hmain : cutest_internal_register_type
      (cutest_internal_register_type t i1) i2 =
      cutest_internal_register_type t i1 := by
    unfold cutest_internal_register_type
    rcases h1 : t.insert i1 with _ | t2
    · obtain ⟨x, hx, hn⟩ := TypeTree.insert_eq_none_mem h1
      rw [TypeTree.insert_eq_none_of_mem_name ht hx (hn.trans hname.symm)]
    · have ht2 : t2.Ordered := TypeTree.insert_type_ordered ht h1
      have hmem : i1 ∈ t2.inorder :=
        (TypeTree.mem_inorder_of_insert_type h1 i1).mpr (Or.inl rfl)
      rw [TypeTree.insert_eq_none_of_mem_name ht2 hmem hname.symm]
  exact ⟨hmain, fun n => by rw [hmain]⟩

/-- A sample custom type record and a rival record with the same name. -/
def sampleTypeInfo : cutest_type_info := ⟨[116], 1, 2⟩

def rivalTypeInfo : cutest_type_info := ⟨[116], 7, 8⟩

theorem C7_register_type_idempotent_witness :
    TypeTree.Ordered .nil ∧
      rivalTypeInfo.type_name = sampleTypeInfo.type_name ∧
      (cutest_internal_register_type
          (cutest_internal_register_type .nil sampleTypeInfo)
          rivalTypeInfo =
        cutest_internal_register_type .nil sampleTypeInfo ∧
      ∀ n, TypeTree.findType
          (cutest_internal_register_type
            (cutest_internal_register_type .nil sampleTypeInfo)
            rivalTypeInfo) n =
        TypeTree.findType
          (cutest_internal_register_type .nil sampleTypeInfo) n) :=
  ⟨trivial, by decide,
    C7_register_type_idempotent .nil sampleTypeInfo rivalTypeInfo
      trivial (by decide)⟩

/-- The six comparison operators `OP` usable in `ASSERT_OP_TYPE`
(`==`, `!=`, `<`, `<=`, `>`, `>=`). -/
inductive CmpOp where
  | eq | ne | lt | le | gt | ge
  deriving DecidableEq, Repr

/-- The C test `c OP 0` applied to the result of
`cutest_internal_compare`. -/
def CmpOp.holds : CmpOp → Int → Bool
  | .eq, c => c == 0
  | .ne, c => c != 0
  | .lt, c => decide (c < 0)
  | .le, c => decide (c ≤ 0)
  | .gt, c => decide (c > 0)
  | .ge, c => decide (c ≥ 0)

/-- Observable actions of one execution of the assertion macro, in
program order.  `evalL`/`evalR` record one evaluation of the left/right
operand expression (`TYPE _L = (a); TYPE _R = (b);`), `compareCalled` the
call to `cutest_internal_compare`, `dumpCalled` the diagnostic rendering
`cutest_internal_dump` applied to the stored temporaries, `debugBreak`
the `TEST_DEBUGBREAK` trap, and `assertFailure` the failure recording
`cutest_internal_assert_failure`. -/
inductive AssertEvent (α : Type) where
  | evalL (v : α)
  | evalR (v : α)
  | compareCalled (res : Int)
  | dumpCalled (l r : α)
  | debugBreak
  | assertFailure
  deriving DecidableEq, Repr

def AssertEvent.isEvalL : AssertEvent α → Bool
  | .evalL _ => true
  | _ => false

def AssertEvent.isEvalR : AssertEvent α → Bool
  | .evalR _ => true
  | _ => false

/-- Result of one execution of the assertion macro: the state after the
operand evaluations, and the trace of observable actions. -/
structure AssertRun (σ α : Type) where
  state : σ
  events : List (AssertEvent α)
  deriving Repr

/-- Shallow embedding of `ASSERT_TEMPLATE_EXT` (`include/cutest.h` lines
1118-1130).  Operand expressions `a` and `b` are effectful computations
over an abstract state `σ` (capturing any side effects of the C
expressions); the macro stores each operand once in a temporary, calls
`cutest_internal_compare` on the temporaries' addresses, and breaks out
of the statement when `c OP 0` holds; otherwise it renders the diagnostic
from the stored temporaries, traps iff `cutest_internal_break_on_failure`
is set, and records the failure. -/
def ASSERT_TEMPLATE_EXT (op : CmpOp) (a b : σ → α × σ)
    (compare : α → α → Int) (break_on_failure : Bool) (s0 : σ) :
    AssertRun σ α :=
  let la := a s0
  let lb := b la.2
  let c := compare la.1 lb.1
  if op.holds c then
    ⟨lb.2, [.evalL la.1, .evalR lb.1, .compareCalled c]⟩
  else
    ⟨lb.2,
      [.evalL la.1, .evalR lb.1, .compareCalled c, .dumpCalled la.1 lb.1]
        ++ (if break_on_failure then [.debugBreak] else [])
        ++ [.assertFailure]⟩

/-- C3: the failure branch (rendering the diagnostic via dump and
recording the failure) is taken if and only if the comparison result
`c = compare(&_L, &_R)` does not satisfy `c OP 0`; when `c OP 0` holds
the assertion performs no action beyond evaluating the operands and
calling compare. -/
theorem C3_failure_branch_iff {σ α : Type} (op : CmpOp) (a b : σ → α × σ)
    (compare : α → α → Int) (brk : Bool) (s0 : σ) :
    (AssertEvent.dumpCalled (a s0).1 (b (a s0).2).1 ∈
          (ASSERT_TEMPLATE_EXT op a b compare brk s0).events ∧
        AssertEvent.assertFailure ∈
          (ASSERT_TEMPLATE_EXT op a b compare brk s0).events ↔
      op.holds (compare (a s0).1 (b (a s0).2).1) = false) ∧
    (op.holds (compare (a s0).1 (b (a s0).2).1) = true →
      (ASSERT_TEMPLATE_EXT op a b compare brk s0).events =
          [.evalL (a s0).1, .evalR (b (a s0).2).1,
            .compareCalled (compare (a s0).1 (b (a s0).2).1)] ∧
        (ASSERT_TEMPLATE_EXT op a b compare brk s0).state = (b (a s0).2).2) := by
  rcases hc : op.holds (compare (a s0).1 (b (a s0).2).1) with _ | _
  · constructor
    · simp only [ASSERT_TEMPLATE_EXT, hc, Bool.false_eq_true, if_false]
      simp
    · intro h
      simp at h
  · constructor
    · simp only [ASSERT_TEMPLATE_EXT, hc, if_true]
      simp
    · intro _
      simp [ASSERT_TEMPLATE_EXT, hc]

theorem C3_failure_branch_iff_witness :
    (AssertEvent.dumpCalled ((fun s => (3, s + 1)) 0).1
          (((fun s => ((4 : Int), s + 10)) ((fun s => ((3 : Int), s + 1)) 0).2)).1 ∈
          (ASSERT_TEMPLATE_EXT CmpOp.eq (fun s => ((3 : Int), s + 1))
            (fun s => ((4 : Int), s + 10)) (fun x y => x - y) false
            (0 : Nat)).events ∧
        AssertEvent.assertFailure ∈
          (ASSERT_TEMPLATE_EXT CmpOp.eq (fun s => ((3 : Int), s + 1))
            (fun s => ((4 : Int), s + 10)) (fun x y => x - y) false
            (0 : Nat)).events ↔
      CmpOp.holds CmpOp.eq
          ((fun x y => x - y) ((fun s => ((3 : Int), s + 1)) 0).1
            (((fun s => ((4 : Int), s + 10))
              ((fun s => ((3 : Int), s + 1)) 0).2)).1) = false) ∧
    (CmpOp.holds CmpOp.eq
          ((fun x y => x - y) ((fun s => ((3 : Int), s + 1)) 0).1
            (((fun s => ((4 : Int), s + 10))
              ((fun s => ((3 : Int), s + 1)) 0).2)).1) = true →
      (ASSERT_TEMPLATE_EXT CmpOp.eq (fun s => ((3 : Int), s + 1))
          (fun s => ((4 : Int), s + 10)) (fun x y => x - y) false
          (0 : Nat)).events =
          [.evalL ((fun s => ((3 : Int), s + 1)) 0).1,
            .evalR (((fun s => ((4 : Int), s + 10))
              ((fun s => ((3 : Int), s + 1)) 0).2)).1,
            .compareCalled ((fun x y => x - y)
              ((fun s => ((3 : Int), s + 1)) 0).1
              (((fun s => ((4 : Int), s + 10))
                ((fun s => ((3 : Int), s + 1)) 0).2)).1)] ∧
        (ASSERT_TEMPLATE_EXT CmpOp.eq (fun s => ((3 : Int), s + 1))
          (fun s => ((4 : Int), s + 10)) (fun x y => x - y) false
          (0 : Nat)).state =
          (((fun s => ((4 : Int), s + 10))
            ((fun s => ((3 : Int), s + 1)) 0).2)).2) :=
  C3_failure_branch_iff CmpOp.eq (fun s => ((3 : Int), s + 1))
    (fun s => ((4 : Int), s + 10)) (fun x y => x - y) false (0 : Nat)

/-- C4: each operand expression is evaluated exactly once per execution of
the assertion, regardless of whether the comparison passes or fails: the
trace contains exactly one `evalL` and one `evalR` event, the final state
is the result of applying each operand's effect exactly once, and on
failure the diagnostic is rendered from the stored temporaries (the
once-computed values), not by re-evaluating the operand expressions. -/
theorem C4_operands_evaluated_once {σ α : Type} (op : CmpOp)
    (a b : σ → α × σ) (compare : α → α → Int) (brk : Bool) (s0 : σ) :
    ((ASSERT_TEMPLATE_EXT op a b compare brk s0).events.countP
          (fun e => e.isEvalL) = 1 ∧
      (ASSERT_TEMPLATE_EXT op a b compare brk s0).events.countP
          (fun e => e.isEvalR) = 1) ∧
    (ASSERT_TEMPLATE_EXT op a b compare brk s0).state = (b (a s0).2).2 ∧
    (op.holds (compare (a s0).1 (b (a s0).2).1) = false →
      AssertEvent.dumpCalled (a s0).1 (b (a s0).2).1 ∈
        (ASSERT_TEMPLATE_EXT op a b compare brk s0).events) := by
  rcases hc : op.holds (compare (a s0).1 (b (a s0).2).1) with _ | _ <;>
    rcases brk with _ | _ <;>
      simp [ASSERT_TEMPLATE_EXT, hc, List.countP_cons, List.countP_append,
        AssertEvent.isEvalL, AssertEvent.isEvalR]

theorem C4_operands_evaluated_once_witness :
    ((ASSERT_TEMPLATE_EXT CmpOp.ne (fun s => ((5 : Int), s + 2))
          (fun s => ((5 : Int), s * 3)) (fun x y => x - y) true
          (1 : Nat)).events.countP (fun e => e.isEvalL) = 1 ∧
      (ASSERT_TEMPLATE_EXT CmpOp.ne (fun s => ((5 : Int), s + 2))
          (fun s => ((5 : Int), s * 3)) (fun x y => x - y) true
          (1 : Nat)).events.countP (fun e => e.isEvalR) = 1) ∧
    (ASSERT_TEMPLATE_EXT CmpOp.ne (fun s => ((5 : Int), s + 2))
        (fun s => ((5 : Int), s * 3)) (fun x y => x - y) true
        (1 : Nat)).state =
      ((fun s => ((5 : Int), s * 3))
        ((fun s => ((5 : Int), s + 2)) 1).2).2 ∧
    (CmpOp.holds CmpOp.ne
          ((fun x y => x - y) ((fun s => ((5 : Int), s + 2)) 1).1
            (((fun s => ((5 : Int), s * 3))
              ((fun s => ((5 : Int), s + 2)) 1).2)).1) = false →
      AssertEvent.dumpCalled ((fun s => ((5 : Int), s + 2)) 1).1
          (((fun s => ((5 : Int), s * 3))
            ((fun s => ((5 : Int), s + 2)) 1).2)).1 ∈
        (ASSERT_TEMPLATE_EXT CmpOp.ne (fun s => ((5 : Int), s + 2))
          (fun s => ((5 : Int), s * 3)) (fun x y => x - y) true
          (1 : Nat)).events) :=
  C4_operands_evaluated_once CmpOp.ne (fun s => ((5 : Int), s + 2))
    (fun s => ((5 : Int), s * 3)) (fun x y => x - y) true (1 : Nat)

/-- C9: on a failing assertion with the "break on failure" toggle set, the
interactive breakpoint trap fires after the diagnostic is rendered and
before the failure is recorded; with the toggle clear, the failure is
recorded with no trap at all. -/
theorem C9_break_before_record {σ α : Type} (op : CmpOp)
    (a b : σ → α × σ) (compare : α → α → Int) (s0 : σ)
    (hfail : op.holds (compare (a s0).1 (b (a s0).2).1) = false) :
    (ASSERT_TEMPLATE_EXT op a b compare true s0).events =
        [.evalL (a s0).1, .evalR (b (a s0).2).1,
          .compareCalled (compare (a s0).1 (b (a s0).2).1),
          .dumpCalled (a s0).1 (b (a s0).2).1,
          .debugBreak, .assertFailure] ∧
      (ASSERT_TEMPLATE_EXT op a b compare false s0).events =
        [.evalL (a s0).1, .evalR (b (a s0).2).1,
          .compareCalled (compare (a s0).1 (b (a s0).2).1),
          .dumpCalled (a s0).1 (b (a s0).2).1,
          .assertFailure] ∧
      AssertEvent.debugBreak ∉
        (ASSERT_TEMPLATE_EXT op a b compare false s0).events := by
  refine ⟨?_, ?_, ?_⟩ <;> simp [ASSERT_TEMPLATE_EXT, hfail]

theorem C9_break_before_record_witness :
    CmpOp.holds CmpOp.eq
        ((fun x y => x - y) ((fun s => ((3 : Int), s)) 0).1
          (((fun s => ((7 : Int), s)) ((fun s => ((3 : Int), s)) 0).2)).1) =
      false ∧
    ((ASSERT_TEMPLATE_EXT CmpOp.eq (fun s => ((3 : Int), s))
          (fun s => ((7 : Int), s)) (fun x y => x - y) true
          (0 : Nat)).events =
        [.evalL ((fun s => ((3 : Int), s)) 0).1,
          .evalR (((fun s => ((7 : Int), s))
            ((fun s => ((3 : Int), s)) 0).2)).1,
          .compareCalled ((fun x y => x - y) ((fun s => ((3 : Int), s)) 0).1
            (((fun s => ((7 : Int), s)) ((fun s => ((3 : Int), s)) 0).2)).1),
          .dumpCalled ((fun s => ((3 : Int), s)) 0).1
            (((fun s => ((7 : Int), s)) ((fun s => ((3 : Int), s)) 0).2)).1,
          .debugBreak, .assertFailure] ∧
      (ASSERT_TEMPLATE_EXT CmpOp.eq (fun s => ((3 : Int), s))
          (fun s => ((7 : Int), s)) (fun x y => x - y) false
          (0 : Nat)).events =
        [.evalL ((fun s => ((3 : Int), s)) 0).1,
          .evalR (((fun s => ((7 : Int), s))
            ((fun s => ((3 : Int), s)) 0).2)).1,
          .compareCalled ((fun x y => x - y) ((fun s => ((3 : Int), s)) 0).1
            (((fun s => ((7 : Int), s)) ((fun s => ((3 : Int), s)) 0).2)).1),
          .dumpCalled ((fun s => ((3 : Int), s)) 0).1
            (((fun s => ((7 : Int), s)) ((fun s => ((3 : Int), s)) 0).2)).1,
          .assertFailure] ∧
      AssertEvent.debugBreak ∉
        (ASSERT_TEMPLATE_EXT CmpOp.eq (fun s => ((3 : Int), s))
          (fun s => ((7 : Int), s)) (fun x y => x - y) false
          (0 : Nat)).events) :=
  ⟨by decide,
    C9_break_before_record CmpOp.eq (fun s => ((3 : Int), s))
      (fun s => ((7 : Int), s)) (fun x y => x - y) (0 : Nat) (by decide)⟩

/-- A zero/empty descriptor used only as the default of `List.getD`. -/
def emptyCase : cutest_case :=
  ⟨[], [], 0, 0, 0, 0, 0, [], [], [], 0⟩

/-- Shallow embedding of the registration function generated by
`TEST_PARAMETERIZED_DEFINE` (`include/cutest.h` lines 140-162): the loop
synthesizes one descriptor per element of `s_parameterized_userdata`
(`number_of_parameterized_data = N` iterations), each sharing the
stringized fixture/test names, the fixture setup/teardown, the body
callback and the parameter array, and each carrying `param_idx = i`.  The
list returned is the sequence of descriptors passed to
`cutest_register_case`, in loop order. -/
def TEST_PARAMETERIZED_DEFINE (fixture test ty : CStr)
    (setup teardown body : Nat) (dataCstr : CStr) (values : List Int) :
    List cutest_case :=
  (List.range values.length).map (fun i =>
    { fixture_name := fixture
      case_name := test
      setup := setup
      teardown := teardown
      body := body
      mask := 0
      randkey := 0
      type_name := ty
      test_data_cstr := dataCstr
      param_data := values
      param_idx := i })

/-- `TEST_GET_PARAM()` (`include/cutest.h` lines 128-129): the element of
the instance's parameter array at the instance's parameter index. -/
def TEST_GET_PARAM (data : List Int) (idx : Nat) : Int :=
  data.getD idx 0

/-- The load-time initializer generated by `TEST_P`
(`include/cutest.h` lines 192-204): a per-site static token makes any
re-execution of the initializer a no-op, so the parameterized expansion
registers exactly once, at registration time, not per run. -/
def cutest_usertest_interface_P (descs : List cutest_case)
    (st : CaseTree × Bool) : CaseTree × Bool :=
  if st.2 then st else (registerAll st.1 descs, true)

/-- C2: a parameterized case with a parameter array of N values registers
exactly N descriptors, sharing fixture name, case name, setup and
teardown, each carrying `param_idx = i` and the shared array, so that
instance i observes element i via `TEST_GET_PARAM`; and the registration
interface is idempotent (expansion happens once, at registration, not per
run). -/
theorem C2_parameterized_expansion (fixture test ty : CStr)
    (setup teardown body : Nat) (dataCstr : CStr) (values : List Int) :
    (TEST_PARAMETERIZED_DEFINE fixture test ty setup teardown body
        dataCstr values).length = values.length ∧
    (∀ i, i < values.length →
      ((TEST_PARAMETERIZED_DEFINE fixture test ty setup teardown body
          dataCstr values).getD i emptyCase).fixture_name = fixture ∧
      ((TEST_PARAMETERIZED_DEFINE fixture test ty setup teardown body
          dataCstr values).getD i emptyCase).case_name = test ∧
      ((TEST_PARAMETERIZED_DEFINE fixture test ty setup teardown body
          dataCstr values).getD i emptyCase).setup = setup ∧
      ((TEST_PARAMETERIZED_DEFINE fixture test ty setup teardown body
          dataCstr values).getD i emptyCase).teardown = teardown ∧
      ((TEST_PARAMETERIZED_DEFINE fixture test ty setup teardown body
          dataCstr values).getD i emptyCase).param_idx = i ∧
      ((TEST_PARAMETERIZED_DEFINE fixture test ty setup teardown body
          dataCstr values).getD i emptyCase).param_data = values ∧
      TEST_GET_PARAM
          ((TEST_PARAMETERIZED_DEFINE fixture test ty setup teardown body
            dataCstr values).getD i emptyCase).param_data
          ((TEST_PARAMETERIZED_DEFINE fixture test ty setup teardown body
            dataCstr values).getD i emptyCase).param_idx =
        values.getD i 0) ∧
    (∀ st, cutest_usertest_interface_P
        (TEST_PARAMETERIZED_DEFINE fixture test ty setup teardown body
          dataCstr values)
        (cutest_usertest_interface_P
          (TEST_PARAMETERIZED_DEFINE fixture test ty setup teardown body
            dataCstr values) st) =
      cutest_usertest_interface_P
        (TEST_PARAMETERIZED_DEFINE fixture test ty setup teardown body
          dataCstr values) st) := by
  refine ⟨by simp [TEST_PARAMETERIZED_DEFINE], ?_, ?_⟩
  · intro i hi
    have hget : (TEST_PARAMETERIZED_DEFINE fixture test ty setup teardown
        body dataCstr values).getD i emptyCase =
        { fixture_name := fixture
          case_name := test
          setup := setup
          teardown := teardown
          body := body
          mask := 0
          randkey := 0
          type_name := ty
          test_data_cstr := dataCstr
          param_data := values
          param_idx := i } := by
      simp [TEST_PARAMETERIZED_DEFINE, List.getD_eq_getElem?_getD,
        List.getElem?_map, List.getElem?_range, hi]
    rw [hget]
    exact ⟨rfl, rfl, rfl, rfl, rfl, rfl, rfl⟩
  · intro st
    rcases st with ⟨t, tok⟩
    rcases tok with _ | _ <;> simp [cutest_usertest_interface_P]

theorem C2_parameterized_expansion_witness :
    (1 : Nat) < ([4, 5, 6] : List Int).length ∧
      ((TEST_PARAMETERIZED_DEFINE [102] [116] [105] 3 4 5 [99]
          [4, 5, 6]).length = ([4, 5, 6] : List Int).length ∧
        ((TEST_PARAMETERIZED_DEFINE [102] [116] [105] 3 4 5 [99]
            [4, 5, 6]).getD 1 emptyCase).param_idx = 1 ∧
        TEST_GET_PARAM
            ((TEST_PARAMETERIZED_DEFINE [102] [116] [105] 3 4 5 [99]
              [4, 5, 6]).getD 1 emptyCase).param_data
            ((TEST_PARAMETERIZED_DEFINE [102] [116] [105] 3 4 5 [99]
              [4, 5, 6]).getD 1 emptyCase).param_idx =
          ([4, 5, 6] : List Int).getD 1 0) :=
  ⟨by decide,
    (C2_parameterized_expansion [102] [116] [105] 3 4 5 [99] [4, 5, 6]).1,
    ((C2_parameterized_expansion [102] [116] [105] 3 4 5 [99]
      [4, 5, 6]).2.1 1 (by decide)).2.2.2.2.1,
    ((C2_parameterized_expansion [102] [116] [105] 3 4 5 [99]
      [4, 5, 6]).2.1 1 (by decide)).2.2.2.2.2.2⟩

/-- A preprocessor token standing for one macro argument position:
`arg` is a user-written top-level comma-separated argument piece (its
text abstracted as an identifier), `lit` is one of the numeric sentinels
of the argument-counting macro. -/
inductive PPTok where
  | arg (id : Nat)
  | lit (n : Nat)
  deriving DecidableEq, Repr

/-- Shallow embedding of `TEST_ARG_COUNT` in its non-MSVC form
(`include/cutest.h` lines 332-335):
`TEST_INTERNAL_GET_ARG_COUNT_PRIVATE(0, ## args, 16, 15, ..., 1, 0)`
expands to its 18th argument (the parameter named `count`, preceded by
the 17 parameters `_0` .. `_16`), i.e. the element at index 17 of the
assembled argument list. -/
def TEST_ARG_COUNT (args : List PPTok) : PPTok :=
  ((PPTok.lit 0 :: args) ++
    [PPTok.lit 16, PPTok.lit 15, PPTok.lit 14, PPTok.lit 13, PPTok.lit 12,
     PPTok.lit 11, PPTok.lit 10, PPTok.lit 9, PPTok.lit 8, PPTok.lit 7,
     PPTok.lit 6, PPTok.lit 5, PPTok.lit 4, PPTok.lit 3, PPTok.lit 2,
     PPTok.lit 1, PPTok.lit 0]).getD 17 (PPTok.lit 0)

theorem TEST_ARG_COUNT_counts (args : List PPTok)
    (h : args.length ≤ 16) :
    TEST_ARG_COUNT args = PPTok.lit args.length := by
  unfold TEST_ARG_COUNT
  rw [List.getD_eq_getElem?_getD]
  rw [List.getElem?_append_right (by simp; omega)]
  simp only [List.length_cons]
  have h17 : 17 - (args.length + 1) = 16 - args.length := by omega
  rw [h17]
  have hval : args.length = 16 - (16 - args.length) := by omega
  rw [hval]
  have hk : 16 - args.length ≤ 16 := by omega
  generalize (16 - args.length) = k at hk ⊢
  interval_cases k <;> rfl

theorem length_le_flatten_length (elements : List (List PPTok))
    (hne : ∀ e ∈ elements, e ≠ []) :
    elements.length ≤ elements.flatten.length := by
  induction elements with
  | nil => simp
  | cons e es ih =>
    have he : e ≠ [] := hne e (by simp)
    have h1 : 1 ≤ e.length := by
      cases e with
      | nil => exact absurd rfl he
      | cons x xs => simp
    have h2 := ih (fun x hx => hne x (by simp [hx]))
    simp only [List.flatten_cons, List.length_append, List.length_cons]
    omega

/-- C10: for a parameter list whose elements each span at least one
top-level comma-separated preprocessor argument (a braced element such as
`{ 6, 7 }` spans two) and whose total argument count is within the
supported 16, `TEST_ARG_COUNT` counts the top-level preprocessor
arguments, this count is at least the C array element count
`sizeof(s_parameterized_userdata)/sizeof(s_parameterized_userdata[0])`,
and hence every loop index `i < number_of_parameterized_data` stays below
the size `TEST_ARG_COUNT(...)` of the `s_tests` array. -/
theorem C10_arg_count_bounds_loop (elements : List (List PPTok))
    (hne : ∀ e ∈ elements, e ≠ [])
    (hcap : elements.flatten.length ≤ 16) :
    TEST_ARG_COUNT elements.flatten =
        PPTok.lit elements.flatten.length ∧
      elements.length ≤ elements.flatten.length ∧
      ∀ i, i < elements.length → i < elements.flatten.length := by
  refine ⟨TEST_ARG_COUNT_counts _ hcap,
    length_le_flatten_length elements hne, ?_⟩
  intro i hi
  exact lt_of_lt_of_le hi (length_le_flatten_length elements hne)

/-- Witness: the braced element `{ 6, 7 }` of
`src/test/src/case/feature_arg_count.c` spans the two preprocessor
arguments `{ 6` and `7 }`: the count is 2 while the array has a single
element. -/
theorem C10_arg_count_bounds_loop_witness :
    (∀ e ∈ [[PPTok.arg 0, PPTok.arg 1]], e ≠ []) ∧
      ([[PPTok.arg 0, PPTok.arg 1]] : List (List PPTok)).flatten.length ≤ 16 ∧
      (TEST_ARG_COUNT ([[PPTok.arg 0, PPTok.arg 1]] :
            List (List PPTok)).flatten =
          PPTok.lit ([[PPTok.arg 0, PPTok.arg 1]] :
            List (List PPTok)).flatten.length ∧
        ([[PPTok.arg 0, PPTok.arg 1]] : List (List PPTok)).length ≤
          ([[PPTok.arg 0, PPTok.arg 1]] : List (List PPTok)).flatten.length ∧
        ∀ i, i < ([[PPTok.arg 0, PPTok.arg 1]] :
            List (List PPTok)).length →
          i < ([[PPTok.arg 0, PPTok.arg 1]] :
            List (List PPTok)).flatten.length) :=
  ⟨by decide, by decide,
    C10_arg_count_bounds_loop [[PPTok.arg 0, PPTok.arg 1]]
      (by decide) (by decide)⟩

/-- The three concrete counts checked by
`src/test/src/case/feature_arg_count.c`: `TEST_ARG_COUNT(1, 2) == 2`,
`TEST_ARG_COUNT(3, 4, 5) == 3` and `TEST_ARG_COUNT({ 6, 7 }) == 2`. -/
theorem TEST_ARG_COUNT_feature_tests :
    TEST_ARG_COUNT [PPTok.arg 0, PPTok.arg 1] = PPTok.lit 2 ∧
      TEST_ARG_COUNT [PPTok.arg 0, PPTok.arg 1, PPTok.arg 2] =
        PPTok.lit 3 ∧
      TEST_ARG_COUNT [PPTok.arg 0, PPTok.arg 1] = PPTok.lit 2 := by
  refine ⟨rfl, rfl, rfl⟩

/-- The fatal-signal class intercepted by the fault-isolation context
(spec SS4.3): illegal instruction, segmentation violation, arithmetic
trap, abort. -/
inductive FaultKind where
  | sigill | sigsegv | sigfpe | sigabrt
  deriving DecidableEq, Repr

/-- What a user-supplied phase procedure does when executed: return
normally after recording some number of assertion failures, or raise a
fatal signal. -/
inductive PhaseBehavior where
  | returns (failures : Nat)
  | raises (kind : FaultKind)
  deriving DecidableEq, Repr

/-- Outcome of a guarded phase (spec SS4.3's
`run_guarded(procedure) -> Outcome{Completed, FaultCaught}`). -/
inductive PhaseOutcome where
  | completed (failures : Nat)
  | faultCaught (kind : FaultKind)
  deriving DecidableEq, Repr

/-- Modelled from the spec: `run_guarded` of SS4.3 (built in the sources on
`cutest_porting_setjmp`/`cutest_porting_longjmp`, `include/cutest.h`
lines 1392-1422, whose runtime caller is not among the shipped sources).
The harness arms a recovery point and installs handlers for the fatal
signal class before the phase runs; a normal return yields `Completed`,
and a fatal signal makes the handler perform the non-local jump back,
yielding `FaultCaught` instead of terminating the process. -/
def run_guarded : PhaseBehavior → PhaseOutcome
  | .returns n => .completed n
  | .raises k => .faultCaught k

/-- One resolved test instance of a run: the behavior of its three
phases and whether its setup requests a skip. -/
structure TestInstance where
  setup : PhaseBehavior
  setupSkips : Bool
  body : PhaseBehavior
  teardown : PhaseBehavior
  deriving DecidableEq, Repr

inductive Phase where
  | setup | body | teardown
  deriving DecidableEq, Repr

/-- Terminal state of one instance (spec SS4.4's state machine). -/
inductive InstanceResult where
  | passed
  | skipped
  | failedAssert (failures : Nat)
  | failedFault (phase : Phase) (kind : FaultKind)
  deriving DecidableEq, Repr

/-- Modelled from the spec: running one instance (SS4.3/SS4.4).  Each phase
runs guarded; a caught fault marks the instance failed, recording the
enclosing phase and fault kind, with no further phases attempted for that
instance.  A skip requested during setup short-circuits body and teardown
into the `Skipped` terminal.  Otherwise the instance passes iff no
assertion failure was recorded in any phase.  Also returned is the list
of phases that actually ran. -/
def run_instance (t : TestInstance) : InstanceResult × List Phase :=
  match run_guarded t.setup with
  | .faultCaught k => (.failedFault .setup k, [.setup])
  | .completed n1 =>
    if t.setupSkips then (.skipped, [.setup])
    else
      match run_guarded t.body with
      | .faultCaught k => (.failedFault .body k, [.setup, .body])
      | .completed n2 =>
        match run_guarded t.teardown with
        | .faultCaught k =>
          (.failedFault .teardown k, [.setup, .body, .teardown])
        | .completed n3 =>
          if n1 + n2 + n3 = 0 then
            (.passed, [.setup, .body, .teardown])
          else
            (.failedAssert (n1 + n2 + n3), [.setup, .body, .teardown])

/-- Modelled from the spec: the harness walks the resolved sequence of
instances strictly sequentially, re-arming the fault-isolation context
for each; a fault in one instance never terminates the walk. -/
def cutest_run_tests : List TestInstance → List (InstanceResult × List Phase)
  | [] => []
  | t :: rest => run_instance t :: cutest_run_tests rest

theorem cutest_run_tests_eq_map (l : List TestInstance) :
    cutest_run_tests l = l.map run_instance := by
  induction l with
  | nil => rfl
  | cons t rest ih => simp [cutest_run_tests, ih]

/-- C1: when one instance's body raises a fatal fault, the harness marks
exactly that instance as failed with the enclosing phase and fault kind,
runs no remaining phase for it (teardown is not attempted), still
executes and evaluates every subsequent registered instance exactly as it
would alone, and the run yields a result for every instance (the process
does not terminate because of the fault). -/
theorem C1_fault_isolated (pre post : List TestInstance)
    (t : TestInstance) (k : FaultKind) (n1 : Nat)
    (hsetup : t.setup = .returns n1) (hskip : t.setupSkips = false)
    (hbody : t.body = .raises k) :
    cutest_run_tests (pre ++ t :: post) =
        cutest_run_tests pre ++
          (InstanceResult.failedFault .body k, [Phase.setup, Phase.body]) ::
            cutest_run_tests post ∧
      (cutest_run_tests (pre ++ t :: post)).length =
        (pre ++ t :: post).length ∧
      Phase.teardown ∉ (run_instance t).2 ∧
      (run_instance t).1 = .failedFault .body k := by
  have hrun : run_instance t =
      (.failedFault .body k, [Phase.setup, Phase.body]) := by
    simp [run_instance, run_guarded, hsetup, hskip, hbody]
  refine ⟨?_, ?_, ?_, ?_⟩
  · simp [cutest_run_tests_eq_map, hrun]
  · simp [cutest_run_tests_eq_map]
  · rw [hrun]
    simp
  · rw [hrun]

/-- Witness: a three-instance run whose middle instance's body raises a
segmentation violation; the surrounding instances pass. -/
def okInstance : TestInstance :=
  ⟨.returns 0, false, .returns 0, .returns 0⟩

def crashingInstance : TestInstance :=
  ⟨.returns 0, false, .raises .sigsegv, .returns 0⟩

theorem C1_fault_isolated_witness :
    crashingInstance.setup = .returns 0 ∧
      crashingInstance.setupSkips = false ∧
      crashingInstance.body = .raises .sigsegv ∧
      (cutest_run_tests [okInstance, crashingInstance, okInstance] =
          cutest_run_tests [okInstance] ++
            (InstanceResult.failedFault .body .sigsegv,
              [Phase.setup, Phase.body]) ::
              cutest_run_tests [okInstance] ∧
        (cutest_run_tests
            [okInstance, crashingInstance, okInstance]).length =
          ([okInstance, crashingInstance, okInstance] :
            List TestInstance).length ∧
        Phase.teardown ∉ (run_instance crashingInstance).2 ∧
        (run_instance crashingInstance).1 =
          .failedFault .body .sigsegv) :=
  ⟨rfl, rfl, rfl,
    C1_fault_isolated [okInstance] [okInstance] crashingInstance
      .sigsegv 0 rfl rfl rfl⟩

/-- Modelled from the spec: the value domain of
`cutest_porting_compare_floating_number` (declared in `include/cutest.h`
line 1511; its default EPSILON/ULP implementation is not among the
shipped sources).  An IEEE-754 `float`/`double` is NaN, a signed
infinity, or a finite value, modelled by its exact rational value
together with its index in the ordered enumeration of representable
values (the integer whose differences measure ULP distance). -/
inductive FloatVal where
  | nan
  | inf (negative : Bool)
  | finite (val : ℚ) (ulp : ℤ)
  deriving DecidableEq, Repr

/-- The machine epsilon used by the relative-epsilon criterion
(`DBL_EPSILON = 2^-52`). -/
def FLT_CMP_EPSILON : ℚ := 1 / 2 ^ 52

/-- The maximal ULP distance accepted as equal ("a small integer distance
measured in representable-value steps"). -/
def FLT_CMP_MAXULPS : Nat := 4

/-- Modelled from the spec: tolerant floating-point equality — two finite
values are equal when within a small relative epsilon OR within a small
ULP distance of each other; NaN is never equal to anything, including
itself; an infinity is equal only to the same-signed infinity. -/
def floatEqual : FloatVal → FloatVal → Bool
  | .nan, _ => false
  | _, .nan => false
  | .inf s1, .inf s2 => s1 == s2
  | .inf _, .finite _ _ => false
  | .finite _ _, .inf _ => false
  | .finite v1 u1, .finite v2 u2 =>
    decide (|v1 - v2| ≤ FLT_CMP_EPSILON * max |v1| |v2|) ||
      decide ((u1 - u2).natAbs ≤ FLT_CMP_MAXULPS)

/-- Modelled from the spec: plain numeric strict order on the
floating-point domain, used for the sign of an unequal comparison
(`-inf` below every finite value, `+inf` above; the position of NaN in
the order is an arbitrary fixed choice, as the spec only requires NaN to
compare unequal). -/
def floatLt : FloatVal → FloatVal → Bool
  | .nan, _ => false
  | _, .nan => true
  | .inf s1, .inf s2 => s1 && !s2
  | .inf s1, .finite _ _ => s1
  | .finite _ _, .inf s2 => !s2
  | .finite v1 _, .finite v2 _ => decide (v1 < v2)

/-- Modelled from the spec: `cutest_porting_compare_floating_number`
returns 0 on tolerant equality and otherwise the sign of the numeric
order. -/
def cutest_porting_compare_floating_number (v1 v2 : FloatVal) : Int :=
  if floatEqual v1 v2 then 0
  else if floatLt v1 v2 then -1
  else 1

/-- C8: the floating-point equality of the comparison engine is tolerant,
not bitwise — any two finite values within the relative epsilon or
within the ULP tolerance compare equal (in particular 1.0 and
1.0 + epsilon/2); NaN compares unequal to everything, including itself;
infinities compare equal exactly to the same-signed infinity. -/
theorem C8_floating_tolerant_compare :
    (∀ (q1 q2 : ℚ) (u1 u2 : ℤ),
      (|q1 - q2| ≤ FLT_CMP_EPSILON * max |q1| |q2| ∨
        (u1 - u2).natAbs ≤ FLT_CMP_MAXULPS) →
      cutest_porting_compare_floating_number (.finite q1 u1)
        (.finite q2 u2) = 0) ∧
    (∀ v, cutest_porting_compare_floating_number .nan v ≠ 0 ∧
      cutest_porting_compare_floating_number v .nan ≠ 0) ∧
    cutest_porting_compare_floating_number (.finite 1 0)
        (.finite (1 + FLT_CMP_EPSILON / 2) 26) = 0 ∧
    (∀ s, cutest_porting_compare_floating_number (.inf s) (.inf s) = 0) ∧
    cutest_porting_compare_floating_number (.inf false) (.inf true) ≠ 0 ∧
    (∀ s v, cutest_porting_compare_floating_number (.inf s) v = 0 →
      v = .inf s) := by
  refine ⟨?_, ?_, ?_, ?_, ?_, ?_⟩
  · intro q1 q2 u1 u2 h
    have heq : floatEqual (.finite q1 u1) (.finite q2 u2) = true := by
      simp only [floatEqual, Bool.or_eq_true, decide_eq_true_eq]
      rcases h with h | h
      · exact Or.inl h
      · exact Or.inr h
    simp [cutest_porting_compare_floating_number, heq]
  · intro v
    constructor
    · cases v <;>
        simp [cutest_porting_compare_floating_number, floatEqual, floatLt]
    · cases v <;>
        simp [cutest_porting_compare_floating_number, floatEqual, floatLt]
  · have heq : floatEqual (.finite 1 0)
        (.finite (1 + FLT_CMP_EPSILON / 2) 26) = true := by
      simp only [floatEqual, Bool.or_eq_true, decide_eq_true_eq]
      left
      rw [FLT_CMP_EPSILON]
      rw [abs_of_nonpos (by norm_num), abs_of_nonneg (by norm_num),
        abs_of_nonneg (by norm_num)]
      rw [max_eq_right (by norm_num)]
      norm_num
    simp [cutest_porting_compare_floating_number, heq]
  · intro s
    simp [cutest_porting_compare_floating_number, floatEqual]
  · simp [cutest_porting_compare_floating_number, floatEqual, floatLt]
  · intro s v h
    rcases v with _ | s2 | ⟨q, u⟩
    · simp [cutest_porting_compare_floating_number, floatEqual,
        floatLt] at h
    · by_cases hs : s2 = s
      · rw [hs]
      · exfalso
        have hne : floatEqual (.inf s) (.inf s2) = false := by
          simp [floatEqual]
          exact fun he => absurd he.symm hs
        rcases hbl : floatLt (.inf s) (.inf s2) with _ | _ <;>
          simp [cutest_porting_compare_floating_number, hne, hbl] at h
    · have hne : floatEqual (.inf s) (.finite q u) = false := rfl
      rcases hbl : floatLt (.inf s) (.finite q u) with _ | _ <;>
        simp [cutest_porting_compare_floating_number, hne, hbl] at h

theorem C8_floating_tolerant_compare_witness :
    (|(3 : ℚ) - 3| ≤ FLT_CMP_EPSILON * max |(3 : ℚ)| |(3 : ℚ)| ∨
      ((5 : ℤ) - 7).natAbs ≤ FLT_CMP_MAXULPS) ∧
    cutest_porting_compare_floating_number (.finite 3 5)
        (.finite 3 7) = 0 ∧
    cutest_porting_compare_floating_number .nan .nan ≠ 0 ∧
    cutest_porting_compare_floating_number (.finite 1 0)
        (.finite (1 + FLT_CMP_EPSILON / 2) 26) = 0 ∧
    cutest_porting_compare_floating_number (.inf false) (.inf false) = 0 ∧
    cutest_porting_compare_floating_number (.inf false) (.inf true) ≠ 0 :=
  ⟨Or.inr (by decide),
    C8_floating_tolerant_compare.1 3 3 5 7 (Or.inr (by decide)),
    (C8_floating_tolerant_compare.2.1 .nan).1,
    C8_floating_tolerant_compare.2.2.1,
    C8_floating_tolerant_compare.2.2.2.1 false,
    C8_floating_tolerant_compare.2.2.2.2.1⟩
